import Mathlib

/-!
# Verification of the Hyperliquid candle-cache refresh pipeline

A shallow embedding, in Lean 4, of the core of the `backend-hyperliquid-candles`
Go service: the snapshot cache (`cache.go`), the batch refresh orchestrator
(`candles.go` / `CandleFetcherActor.fetchAllCandles`), the retry wrapper
(`hyperliquid.go` / `FetchCandlesWithRetry`), the identifier-refresh routine
(`symbols.go` / `SymbolFetcherActor.fetchSymbols`), the universe filter
(`hydromancer.go` / `FetchPerpetualSymbols`), and the JSON wire decoding of
candles (`types.go` / `HyperliquidCandle` with its `,string` struct tags).

Modelling conventions:
* Go `time.Time` values are modelled as abstract `Nat` clock readings, passed
  explicitly (`now`) where the Go code calls `time.Now()`.
* Go `float64` price/volume values are modelled as `ℚ`: no claim computes with
  them, so only their identity matters.
* Go maps are modelled as association lists with at most one binding per key
  (`mapInsert` overwrites in place or appends).
* Network effects are modelled by passing the outcome of each upstream call as
  an explicit `Except` argument (an oracle); the code under verification is the
  deterministic control flow around those outcomes.
-/

set_option autoImplicit false

namespace HyperliquidCandles

/-- Go errors, kept abstract: only identity and propagation matter. -/
abbrev GoErr := String

/-- `Candle` from types.go: OHLCV data (timestamp in ms, prices and volume as
float64, modelled as `ℚ`). The Go field `Open` is renamed `openPrice` (and the
others to match) because `open` is a Lean keyword. -/
structure Candle where
  timestamp : Int
  openPrice : ℚ
  highPrice : ℚ
  lowPrice : ℚ
  closePrice : ℚ
  volume : ℚ
  deriving DecidableEq, Repr

/-- `CacheEntry` from types.go: candle data for a single symbol. -/
structure CacheEntry where
  symbol : String
  candles : List Candle
  lastUpdate : Nat
  deriving DecidableEq, Repr

/-- One-binding-per-key insertion into an association list, mirroring Go map
assignment `m[k] = v`: overwrite the existing binding or append a new one. -/
def mapInsert {β : Type} (k : String) (v : β) : List (String × β) → List (String × β)
  | [] => [(k, v)]
  | (k', v') :: rest => if k' = k then (k, v) :: rest else (k', v') :: mapInsert k v rest

/-- Association-list lookup, mirroring Go map read `m[k]`. -/
def mapLookup {β : Type} (k : String) : List (String × β) → Option β
  | [] => none
  | (k', v) :: rest => if k' = k then some v else mapLookup k rest

/-- `Cache` from cache.go. The `sync.RWMutex` has no sequential content; the
remaining fields are carried verbatim. -/
structure Cache where
  data : List (String × CacheEntry)
  symbols : List String
  lastUpdate : Nat
  symbolUpdate : Nat
  deriving DecidableEq, Repr

/-- `NewCache` from cache.go: empty map, empty symbol list, zero timestamps. -/
def NewCache : Cache :=
  { data := [], symbols := [], lastUpdate := 0, symbolUpdate := 0 }

namespace Cache

/-- `Cache.Set` from cache.go: stores `candles` for `symbol` under a fresh
entry stamped with the current time and bumps the data `lastUpdate` stamp.
`now` stands for the `time.Now()` calls. -/
def Set (c : Cache) (now : Nat) (symbol : String) (candles : List Candle) : Cache :=
  { c with
      data := mapInsert symbol { symbol := symbol, candles := candles, lastUpdate := now } c.data,
      lastUpdate := now }

/-- `Cache.Get` from cache.go: entry for a symbol, `none` when absent. -/
def Get (c : Cache) (symbol : String) : Option CacheEntry :=
  mapLookup symbol c.data

/-- `Cache.SetSymbols` from cache.go: replaces the symbol list and bumps the
symbol `symbolUpdate` stamp. -/
def SetSymbols (c : Cache) (now : Nat) (symbols : List String) : Cache :=
  { c with symbols := symbols, symbolUpdate := now }

/-- `Cache.GetSymbols` from cache.go: the active symbol list (the Go code
returns a copy; copying is identity on immutable values). -/
def GetSymbols (c : Cache) : List String :=
  c.symbols

/-- `Cache.GetLastUpdate` from cache.go. -/
def GetLastUpdate (c : Cache) : Nat :=
  c.lastUpdate

/-- `Cache.GetSymbolUpdate` from cache.go. -/
def GetSymbolUpdate (c : Cache) : Nat :=
  c.symbolUpdate

end Cache

/-! ## Batch partitioning (`CandleFetcherActor.fetchAllCandles`, loop header)

The Go loop is `for batchIdx := 0; batchIdx < len(symbols); batchIdx += batchSize`
with `batch := symbols[batchIdx:min(batchIdx+batchSize, len(symbols))]`.
`chunkFrom` mirrors that loop; the `0 < b` conjunct in the guard only records
that the Go loop fails to terminate when `batchSize = 0` (the claims assume a
positive batch size; the actor always uses 10). -/

/-- The sequence of batches produced from index `i` on. -/
def chunkFrom (l : List String) (b : Nat) (i : Nat) : List (List String) :=
  if h : i < l.length ∧ 0 < b then
    ((l.drop i).take b) :: chunkFrom l b (i + b)
  else
    []
termination_by l.length - i
decreasing_by omega

/-- The batches of a symbol list, as produced by the orchestrator's loop. -/
def batches (l : List String) (b : Nat) : List (List String) :=
  chunkFrom l b 0

/-- Structural companion of `chunkFrom`: chop a list into chunks of `b` from
the front. Used only to reason about `chunkFrom` by plain list recursion. -/
def chunkList (l : List String) (b : Nat) : List (List String) :=
  if h : l ≠ [] ∧ 0 < b then
    l.take b :: chunkList (l.drop b) b
  else
    []
termination_by l.length
decreasing_by
  rcases h with ⟨hne, hb⟩
  have : 0 < l.length := List.length_pos.mpr hne
  simp [List.length_drop]
  omega

/-! ## Retry wrapper (`HyperliquidClient.FetchCandlesWithRetry`) -/

/-- Wrap-around of a mathematical integer into the two's-complement `int64`
range, as Go arithmetic does. -/
def int64Wrap (x : Int) : Int :=
  (x + 2 ^ 63) % 2 ^ 64 - 2 ^ 63

/-- Go's `1 << uint(attempt)` on `int`: shifts past the 64-bit width produce
zero, and the in-range shift wraps as `int64`. -/
def goShl1 (attempt : Nat) : Int :=
  if attempt < 64 then int64Wrap (2 ^ attempt) else 0

/-- The backoff duration `time.Duration(1<<uint(attempt)) * time.Second`, in
nanoseconds (Go `time.Duration` is an `int64` count of nanoseconds). -/
def goBackoffNs (attempt : Nat) : Int :=
  int64Wrap (goShl1 attempt * 1000000000)

/-- One `time.Duration` unit of one second, in nanoseconds. -/
def oneSecondNs : Int := 1000000000

/-- The terminal error of `FetchCandlesWithRetry`:
`fmt.Errorf("failed after %d retries: %w", maxRetries, lastErr)`. `lastErr` is
`none` when the loop body never ran (`nil` in Go). -/
structure RetryError where
  maxRetries : Int
  lastErr : Option GoErr
  deriving DecidableEq, Repr

deriving instance DecidableEq for Except

/-- The observable outcome of one `FetchCandlesWithRetry` call: its return
value, the number of `FetchCandles` calls made, and the `time.Sleep` durations
performed, in order. -/
structure RetryOutcome where
  result : Except RetryError (List Candle)
  attempts : Nat
  sleeps : List Int
  deriving DecidableEq, Repr

/-- The retry loop of `FetchCandlesWithRetry`, from loop counter `attempt` with
accumulated `lastErr`. `fetch n` is the outcome of the `(n+1)`-th
`FetchCandles` call (the network is the oracle; the loop is the code). -/
def retryLoop (fetch : Nat → Except GoErr (List Candle)) (maxRetries : Int) (attempt : Nat)
    (lastErr : Option GoErr) : RetryOutcome :=
  if h : (attempt : Int) < maxRetries then
    match fetch attempt with
    | .ok candles => { result := .ok candles, attempts := 1, sleeps := [] }
    | .error e =>
      if (attempt : Int) < maxRetries - 1 then
        { result := (retryLoop fetch maxRetries (attempt + 1) (some e)).result,
          attempts := (retryLoop fetch maxRetries (attempt + 1) (some e)).attempts + 1,
          sleeps := goBackoffNs attempt :: (retryLoop fetch maxRetries (attempt + 1) (some e)).sleeps }
      else
        { result := (retryLoop fetch maxRetries (attempt + 1) (some e)).result,
          attempts := (retryLoop fetch maxRetries (attempt + 1) (some e)).attempts + 1,
          sleeps := (retryLoop fetch maxRetries (attempt + 1) (some e)).sleeps }
  else
    { result := .error { maxRetries := maxRetries, lastErr := lastErr }, attempts := 0, sleeps := [] }
termination_by (maxRetries - attempt).toNat
decreasing_by all_goals (push_cast; omega)

/-- `FetchCandlesWithRetry` from hyperliquid.go: run the retry loop from
`attempt = 0` with `lastErr = nil`. The symbol, interval and window arguments
are absorbed into the `fetch` oracle, which stands for
`FetchCandles(symbol, interval, startTime, endTime)`. -/
def FetchCandlesWithRetry (fetch : Nat → Except GoErr (List Candle)) (maxRetries : Int) :
    RetryOutcome :=
  retryLoop fetch maxRetries 0 none

/-! ## Batch refresh orchestrator (`CandleFetcherActor.fetchAllCandles`)

The cycle fetches each batch's symbols concurrently and collects the results
from a channel, so the per-batch processing order is nondeterministic. It is
modelled by a parameter `perm` giving, for each batch, the order in which its
results are taken off the channel; theorems assume `perm bt` is a permutation
of `bt`. The per-symbol terminal outcome of `FetchCandlesWithRetry` is the
oracle `fetch : String → Except GoErr (List Candle)` (deterministic per cycle:
one cycle issues one retry-wrapped fetch per symbol occurrence, with identical
arguments). The inter-batch `time.Sleep` has no effect on the cache. -/

/-- The observable outcome of one `fetchAllCandles` cycle: the final cache,
the `successCount`, and the symbols for which a fetch was launched, in launch
order. -/
structure FetchCycleResult where
  cache : Cache
  successCount : Nat
  fetched : List String
  deriving DecidableEq, Repr

/-- The result-collection loop of `fetchAllCandles`, run over the processing
order of one batch (the order results come off the channel): a failed symbol
is stored as an empty candle list, a successful one as its candles and
counted in `successCount`. -/
def collectResults (fetch : String → Except GoErr (List Candle)) (now : Nat) :
    List String → Cache × Nat → Cache × Nat
  | [], acc => acc
  | sym :: rest, acc =>
    collectResults fetch now rest
      (match fetch sym with
       | .error _ => (acc.1.Set now sym [], acc.2)
       | .ok candles => (acc.1.Set now sym candles, acc.2 + 1))

/-- `CandleFetcherActor.fetchAllCandles` from candles.go: read the symbol
list; if empty, skip; otherwise process the batches in order, writing every
result (success or terminal failure) into the cache. `now` stands for the
single wall-clock instant of the cycle's `time.Now()`/`Set` calls; the time
window passed to the fetches is absorbed into the `fetch` oracle. -/
def fetchAllCandles (c : Cache) (now : Nat) (fetch : String → Except GoErr (List Candle))
    (batchSize : Nat) (perm : List String → List String) : FetchCycleResult :=
  let symbols := c.GetSymbols
  if symbols.length = 0 then
    { cache := c, successCount := 0, fetched := [] }
  else
    let bs := batches symbols batchSize
    let final := bs.foldl (fun st bt => collectResults fetch now (perm bt) st) (c, 0)
    { cache := final.1, successCount := final.2, fetched := bs.flatten }

/-! ## Identifier refresh (`SymbolFetcherActor.fetchSymbols`) -/

/-- The mutable state touched by one `fetchSymbols` run: the shared cache and
the actor's local fallback list `cachedSymbols` (initialised to `[]` by
`NewSymbolFetcherActor`). -/
structure SymbolFetcherState where
  cache : Cache
  cachedSymbols : List String
  deriving DecidableEq, Repr

/-- The state of a freshly constructed `SymbolFetcherActor` over a fresh
cache. -/
def initialSymbolFetcherState : SymbolFetcherState :=
  { cache := NewCache, cachedSymbols := [] }

/-- `SymbolFetcherActor.fetchSymbols` from symbols.go. `fetchResult` is the
outcome of `FetchPerpetualSymbols()`; `now` stands for the wall clock at the
`SetSymbols` call. Besides the new state, it returns the symbol list written
to the cache by this run, if any (`none` when no `SetSymbols` call happens). -/
def fetchSymbols (st : SymbolFetcherState) (now : Nat)
    (fetchResult : Except GoErr (List String)) : SymbolFetcherState × Option (List String) :=
  match fetchResult with
  | .error _ =>
    if st.cachedSymbols.length > 0 then
      ({ st with cache := st.cache.SetSymbols now st.cachedSymbols }, some st.cachedSymbols)
    else
      (st, none)
  | .ok symbols =>
    if symbols.length = 0 then
      (st, none)
    else
      ({ cache := st.cache.SetSymbols now symbols, cachedSymbols := symbols }, some symbols)

/-- A sequence of `fetchSymbols` runs: each trace element is the wall clock
and the `FetchPerpetualSymbols` outcome of one run. -/
def runSymbolFetcher (st : SymbolFetcherState)
    (trace : List (Nat × Except GoErr (List String))) : SymbolFetcherState :=
  trace.foldl (fun s step => (fetchSymbols s step.1 step.2).1) st

/-- The most recent non-empty successfully fetched universe along a trace
(`dflt` if none): the values `cachedSymbols` is successively set to. -/
def lastGoodUniverse (dflt : List String)
    (trace : List (Nat × Except GoErr (List String))) : List String :=
  trace.foldl
    (fun acc step =>
      match step.2 with
      | .ok l => if l.length = 0 then acc else l
      | .error _ => acc)
    dflt

/-! ## Universe filter (`HydromancerClient.FetchPerpetualSymbols`) -/

/-- One entry of the `meta` endpoint's `universe` array (`MetaResponse` in
hydromancer.go). -/
structure MetaUniverseItem where
  name : String
  isDelisted : Bool
  deriving DecidableEq, Repr

/-- The symbol-extraction loop of `FetchPerpetualSymbols` from hydromancer.go:
append the name of every entry that has a non-empty name and is not delisted.
The HTTP request, status check and JSON decode are absorbed into the `univ`
argument, the decoded `response.Universe` (Lean reserves the word itself as a
keyword); a failed call never reaches this loop. -/
def FetchPerpetualSymbols (univ : List MetaUniverseItem) : List String :=
  univ.foldl
    (fun symbols item =>
      if item.name ≠ "" && !item.isDelisted then symbols ++ [item.name] else symbols)
    []

/-! ## Wire decoding of candles (`HyperliquidCandle` in types.go)

Go's `encoding/json` decodes a `float64` field carrying the `,string` struct
tag only from a JSON *string* whose contents form a valid JSON number; a
number-typed value at such a field makes `Unmarshal` fail with
`invalid use of ,string struct tag`. A plain (untagged) integer field decodes
only from an integer-valued JSON number. The model below embeds exactly that
decision logic; JSON values are restricted to the two encodings the spec
discusses (number-typed and string-typed scalars), and number values are
represented by their numeric value. -/

/-- A scalar JSON value at a candle field: number-typed or string-typed. -/
inductive JVal where
  | jnum (q : ℚ)
  | jstr (s : String)
  deriving DecidableEq, Repr

/-- The numeric value of a digit run (most significant first). -/
def digitsToNat (l : List Char) : Nat :=
  l.foldl (fun acc ch => 10 * acc + (ch.toNat - '0'.toNat)) 0

/-- Parse the exponent part of a JSON number (after `e`/`E`) and apply it to
the mantissa. -/
def applyExp (mant : ℚ) (l : List Char) : Option ℚ :=
  let signAndDigits : Int × List Char :=
    match l with
    | '+' :: rest => (1, rest)
    | '-' :: rest => (-1, rest)
    | rest => (1, rest)
  if signAndDigits.2.isEmpty || !signAndDigits.2.all Char.isDigit then none
  else some (mant * (10 : ℚ) ^ (signAndDigits.1 * (digitsToNat signAndDigits.2 : Int)))

/-- Parse an unsigned JSON number literal: integer part without a leading
zero, optional fraction, optional exponent. -/
def parseUnsignedNumber (l : List Char) : Option ℚ :=
  let intSplit := l.span Char.isDigit
  if intSplit.1.isEmpty then none
  else if 1 < intSplit.1.length && intSplit.1.headD '0' == '0' then none
  else
    let intPart : ℚ := digitsToNat intSplit.1
    match intSplit.2 with
    | [] => some intPart
    | '.' :: rest2 =>
      let fracSplit := rest2.span Char.isDigit
      if fracSplit.1.isEmpty then none
      else
        let mant : ℚ := intPart + (digitsToNat fracSplit.1 : ℚ) / (10 : ℚ) ^ fracSplit.1.length
        match fracSplit.2 with
        | [] => some mant
        | 'e' :: rest4 => applyExp mant rest4
        | 'E' :: rest4 => applyExp mant rest4
        | _ => none
    | 'e' :: rest4 => applyExp intPart rest4
    | 'E' :: rest4 => applyExp intPart rest4
    | _ => none

/-- Parse a JSON number literal (the content of a `,string`-tagged field's
string), as Go's decoder validates and converts it. -/
def parseJsonNumber (s : String) : Option ℚ :=
  match s.toList with
  | '-' :: rest => (parseUnsignedNumber rest).map (fun q => -q)
  | l => parseUnsignedNumber l

/-- Decode a `float64` field carrying the `,string` tag (the `o,h,l,c,v`
fields of `HyperliquidCandle`): succeeds only on a string-typed value holding
a valid number literal; a number-typed value is the
`invalid use of ,string struct tag` error. -/
def decodeStringFloat : JVal → Option ℚ
  | .jstr s => parseJsonNumber s
  | .jnum _ => none

/-- Decode a plain `int64`/`int` field (the `t` and `n` fields of
`HyperliquidCandle`): succeeds only on an integer-valued number-typed value in
the signed 64-bit range. -/
def decodeInt64 : JVal → Option Int
  | .jnum q => if q.den = 1 ∧ -(2 ^ 63) ≤ q.num ∧ q.num < 2 ^ 63 then some q.num else none
  | .jstr _ => none

/-- The JSON object for one candle as sent on the wire, with every field
present (the shapes the claims quantify over). -/
structure RawCandle where
  t : JVal
  o : JVal
  h : JVal
  l : JVal
  c : JVal
  v : JVal
  n : JVal
  deriving DecidableEq, Repr

/-- `HyperliquidCandle` from types.go: the decoded raw candle. -/
structure HyperliquidCandle where
  t : Int
  o : ℚ
  h : ℚ
  l : ℚ
  c : ℚ
  v : ℚ
  n : Int
  deriving DecidableEq, Repr

/-- `json.Unmarshal` of one element of the candle-snapshot response into
`HyperliquidCandle`, per its struct tags. -/
def unmarshalHyperliquidCandle (r : RawCandle) : Option HyperliquidCandle := do
  let t ← decodeInt64 r.t
  let o ← decodeStringFloat r.o
  let h ← decodeStringFloat r.h
  let l ← decodeStringFloat r.l
  let c ← decodeStringFloat r.c
  let v ← decodeStringFloat r.v
  let n ← decodeInt64 r.n
  pure { t := t, o := o, h := h, l := l, c := c, v := v, n := n }

/-- The conversion loop of `FetchCandles` from hyperliquid.go: `rc` to
`Candle`, field by field (`N` is dropped). -/
def convertCandle (rc : HyperliquidCandle) : Candle :=
  { timestamp := rc.t, openPrice := rc.o, highPrice := rc.h, lowPrice := rc.l,
    closePrice := rc.c, volume := rc.v }

/-- The decode-and-convert stage of `FetchCandles` from hyperliquid.go:
`json.Unmarshal` of the response body into `[]HyperliquidCandle` (which fails
if any element fails) followed by the conversion loop. The HTTP transport is
absorbed into the `raw` argument. -/
def FetchCandlesDecode (raw : List RawCandle) : Except GoErr (List Candle) :=
  match raw.mapM unmarshalHyperliquidCandle with
  | none => .error "failed to parse response"
  | some rcs => .ok (rcs.map convertCandle)

/-! ## Slice-sharing model of the cache (`Cache.GetAll` in cache.go)

`Cache.GetAll` copies the `map[string]CacheEntry` into a fresh map, but each
copied `CacheEntry` contains a Go slice header whose backing array is shared
with the cache's own entry. To state what that sharing means, this refinement
of the value-level `Cache` represents a candle slice by a reference
(`candlesRef`) into an explicit store of backing arrays; the structures are
otherwise copied verbatim from cache.go. -/

/-- The backing arrays of all live candle slices, addressed by index. -/
structure HeapStore where
  arrays : List (List Candle)
  deriving DecidableEq, Repr

/-- `CacheEntry` with its `Candles []Candle` slice header made explicit as a
reference into the store. -/
structure HeapEntry where
  symbol : String
  candlesRef : Nat
  lastUpdate : Nat
  deriving DecidableEq, Repr

/-- The `data` map of `Cache`, with slice-carrying entries. -/
structure HeapCache where
  data : List (String × HeapEntry)
  deriving DecidableEq, Repr

/-- The candles a slice reference designates. -/
def readBars (st : HeapStore) (ref : Nat) : List Candle :=
  st.arrays.getD ref []

/-- In-place mutation of one candle through a slice reference, as Go's
`entry.Candles[idx] = cd` does: the backing array is updated in the store. -/
def writeCandle (st : HeapStore) (ref idx : Nat) (cd : Candle) : HeapStore :=
  { arrays := st.arrays.set ref ((st.arrays.getD ref []).set idx cd) }

namespace HeapCache

/-- `Cache.Set` in the slice-sharing model: the entry stores the caller's
slice header (no copy of the backing array is made). -/
def Set (c : HeapCache) (now : Nat) (symbol : String) (ref : Nat) : HeapCache :=
  { data := mapInsert symbol { symbol := symbol, candlesRef := ref, lastUpdate := now } c.data }

/-- `Cache.Get` in the slice-sharing model. -/
def Get (c : HeapCache) (symbol : String) : Option HeapEntry :=
  mapLookup symbol c.data

/-- `Cache.GetAll` from cache.go in the slice-sharing model: build a fresh
map and copy every entry into it (`result[k] = v`), entry structs and their
slice headers included. -/
def GetAll (c : HeapCache) : List (String × HeapEntry) :=
  c.data.foldl (fun result kv => mapInsert kv.1 kv.2 result) []

end HeapCache

/-- What a reader of `getSeries(key)` observes as the bar sequence: the entry
found in the cache, with its slice reference resolved in the store. -/
def getSeriesBars (c : HeapCache) (st : HeapStore) (symbol : String) : Option (List Candle) :=
  (c.Get symbol).map (fun e => readBars st e.candlesRef)

/-! ## Remaining definitions used by the theorems -/

/-- Whether a fetch outcome is a success. -/
def isOkFetch : Except GoErr (List Candle) → Bool
  | .ok _ => true
  | .error _ => false

/-- The entry `fetchAllCandles` writes for a symbol, given that symbol's
terminal fetch outcome: the returned candles on success, the empty list on
terminal failure. -/
def entryFor (fetch : String → Except GoErr (List Candle)) (now : Nat) (sym : String) :
    CacheEntry :=
  match fetch sym with
  | .ok candles => { symbol := sym, candles := candles, lastUpdate := now }
  | .error _ => { symbol := sym, candles := [], lastUpdate := now }

/-- A concrete candle, for the slice-sharing scenario. -/
def sampleCandle : Candle :=
  { timestamp := 0, openPrice := 1, highPrice := 2, lowPrice := 3, closePrice := 4, volume := 5 }

/-- `sampleCandle` after an in-place mutation of its open price. -/
def mutatedCandle : Candle :=
  { sampleCandle with openPrice := 42 }

/-- A store holding one backing array of one candle. -/
def c6Store : HeapStore :=
  { arrays := [[sampleCandle]] }

/-- A cache that stored, for key `X`, the slice referring to that array. -/
def c6Cache : HeapCache :=
  HeapCache.Set { data := [] } 5 "X" 0

/-- The slice reference a caller of `GetAll` obtains from the returned
mapping's entry for `X` (999 would flag an absent entry). -/
def c6ReturnedRef : Nat :=
  ((mapLookup "X" c6Cache.GetAll).map (fun e => e.candlesRef)).getD 999

/-! # Theorems -/

/-! ## Association-list map lemmas -/

theorem mapLookup_mapInsert {β : Type} (k k' : String) (v : β) (m : List (String × β)) :
    mapLookup k' (mapInsert k v m) = if k = k' then some v else mapLookup k' m := by
  induction m with
  | nil => simp [mapInsert, mapLookup]
  | cons hd tl ih =>
    by_cases h1 : hd.1 = k
    · by_cases h2 : k = k' <;> simp [mapInsert, mapLookup, h1, h2]
    · by_cases h2 : hd.1 = k'
      · have h3 : ¬ (k = k') := fun h => h1 (h2.trans h.symm)
        have h4 : ¬ (k' = k) := fun h => h3 h.symm
        simp [mapInsert, mapLookup, h1, h2, h3, h4]
      · simp [mapInsert, mapLookup, h1, h2, ih]

theorem mapLookup_eq_none {β : Type} (k : String) (m : List (String × β))
    (h : k ∉ m.map Prod.fst) : mapLookup k m = none := by
  induction m with
  | nil => rfl
  | cons hd tl ih =>
    simp only [List.map_cons, List.mem_cons] at h
    push_neg at h
    have h1 : ¬ (hd.1 = k) := fun hh => h.1 hh.symm
    simp [mapLookup, h1, ih h.2]

/-! ## C10 and C2: the retry wrapper -/

theorem retryLoop_done (fetch : Nat → Except GoErr (List Candle)) (m : Int) (a : Nat)
    (le : Option GoErr) (h : ¬ ((a : Int) < m)) :
    retryLoop fetch m a le =
      { result := .error { maxRetries := m, lastErr := le }, attempts := 0, sleeps := [] } := by
  unfold retryLoop
  rw [dif_neg h]

theorem retryLoop_ok (fetch : Nat → Except GoErr (List Candle)) (m : Int) (a : Nat)
    (le : Option GoErr) (cs : List Candle) (h : (a : Int) < m) (hf : fetch a = .ok cs) :
    retryLoop fetch m a le = { result := .ok cs, attempts := 1, sleeps := [] } := by
  unfold retryLoop
  rw [dif_pos h, hf]

theorem retryLoop_err_mid (fetch : Nat → Except GoErr (List Candle)) (m : Int) (a : Nat)
    (le : Option GoErr) (e : GoErr) (h : (a : Int) < m - 1) (hf : fetch a = .error e) :
    retryLoop fetch m a le =
      { result := (retryLoop fetch m (a + 1) (some e)).result,
        attempts := (retryLoop fetch m (a + 1) (some e)).attempts + 1,
        sleeps := goBackoffNs a :: (retryLoop fetch m (a + 1) (some e)).sleeps } := by
  have h' : (a : Int) < m := by omega
  conv_lhs => rw [retryLoop]
  rw [dif_pos h', hf]
  exact if_pos h

theorem retryLoop_err_last (fetch : Nat → Except GoErr (List Candle)) (m : Int) (a : Nat)
    (le : Option GoErr) (e : GoErr) (h : (a : Int) < m) (h2 : ¬ ((a : Int) < m - 1))
    (hf : fetch a = .error e) :
    retryLoop fetch m a le =
      { result := (retryLoop fetch m (a + 1) (some e)).result,
        attempts := (retryLoop fetch m (a + 1) (some e)).attempts + 1,
        sleeps := (retryLoop fetch m (a + 1) (some e)).sleeps } := by
  conv_lhs => rw [retryLoop]
  rw [dif_pos h, hf]
  exact if_neg h2

/-- C10: for every `maxRetries ≤ 0`, `FetchCandlesWithRetry` performs zero
fetch attempts and zero sleeps and returns the terminal error
`failed after maxRetries retries` wrapping a nil (`none`) underlying error,
never a success result. -/
theorem fetchCandlesWithRetry_nonpositive_attempts
    (fetch : Nat → Except GoErr (List Candle)) (maxRetries : Int) (h : maxRetries ≤ 0) :
    FetchCandlesWithRetry fetch maxRetries =
      { result := .error { maxRetries := maxRetries, lastErr := none },
        attempts := 0, sleeps := [] } := by
  unfold FetchCandlesWithRetry
  exact retryLoop_done fetch maxRetries 0 none (by push_cast; omega)

/-- Witness for C10 at `maxRetries = -1` and an always-failing fetch. -/
theorem fetchCandlesWithRetry_nonpositive_attempts_witness :
    (-1 : Int) ≤ 0 ∧
    FetchCandlesWithRetry (fun _ => .error "boom") (-1) =
      { result := .error { maxRetries := -1, lastErr := none }, attempts := 0, sleeps := [] } :=
  ⟨by decide, fetchCandlesWithRetry_nonpositive_attempts (fun _ => .error "boom") (-1) (by decide)⟩

/-- C2: with `maxAttempts = 3`, a fetch that fails exactly twice and then
succeeds makes `FetchCandlesWithRetry` return the success result after exactly
two sleeps of one and two seconds (2^attempt seconds after failed attempt
`attempt`, counted from 0, only while attempts remain); an always-failing
fetch makes exactly 3 attempts and yields the terminal error wrapping the last
underlying error, with the same two sleeps and no success. -/
theorem fetchCandlesWithRetry_backoff_spec
    (fetchA fetchB : Nat → Except GoErr (List Candle))
    (e0 e1 : GoErr) (bars : List Candle) (f0 f1 f2 : GoErr)
    (hA0 : fetchA 0 = .error e0) (hA1 : fetchA 1 = .error e1) (hA2 : fetchA 2 = .ok bars)
    (hB0 : fetchB 0 = .error f0) (hB1 : fetchB 1 = .error f1) (hB2 : fetchB 2 = .error f2) :
    FetchCandlesWithRetry fetchA 3 =
      { result := .ok bars, attempts := 3, sleeps := [oneSecondNs, 2 * oneSecondNs] } ∧
    FetchCandlesWithRetry fetchB 3 =
      { result := .error { maxRetries := 3, lastErr := some f2 },
        attempts := 3, sleeps := [oneSecondNs, 2 * oneSecondNs] } := by
  have b0 : goBackoffNs 0 = oneSecondNs := by decide
  have b1 : goBackoffNs 1 = 2 * oneSecondNs := by decide
  constructor
  · rw [FetchCandlesWithRetry,
      retryLoop_err_mid fetchA 3 0 none e0 (by decide) hA0,
      retryLoop_err_mid fetchA 3 1 (some e0) e1 (by decide) hA1,
      retryLoop_ok fetchA 3 2 (some e1) bars (by decide) hA2, b0, b1]
  · rw [FetchCandlesWithRetry,
      retryLoop_err_mid fetchB 3 0 none f0 (by decide) hB0,
      retryLoop_err_mid fetchB 3 1 (some f0) f1 (by decide) hB1,
      retryLoop_err_last fetchB 3 2 (some f1) f2 (by decide) (by decide) hB2,
      retryLoop_done fetchB 3 3 (some f2) (by decide), b0, b1]

/-- Witness for C2: a fetch failing twice then returning `[]`, and a fetch
failing at every attempt. -/
theorem fetchCandlesWithRetry_backoff_spec_witness :
    FetchCandlesWithRetry (fun n => if n < 2 then .error "t" else .ok []) 3 =
      { result := .ok [], attempts := 3, sleeps := [oneSecondNs, 2 * oneSecondNs] } ∧
    FetchCandlesWithRetry (fun n => .error (if n = 2 then "last" else "early")) 3 =
      { result := .error { maxRetries := 3, lastErr := some "last" },
        attempts := 3, sleeps := [oneSecondNs, 2 * oneSecondNs] } :=
  fetchCandlesWithRetry_backoff_spec
    (fun n => if n < 2 then .error "t" else .ok [])
    (fun n => .error (if n = 2 then "last" else "early"))
    "t" "t" [] "early" "early" "last" rfl rfl rfl rfl rfl rfl

/-! ## C3: batch partitioning -/

theorem chunkFrom_eq_chunkList (l : List String) (b : Nat) (i : Nat) :
    chunkFrom l b i = chunkList (l.drop i) b := by
  induction i using chunkFrom.induct l b with
  | case1 i h ih =>
    have hcond : l.drop i ≠ [] ∧ 0 < b := by
      refine ⟨?_, h.2⟩
      intro hnil
      have hlen := congrArg List.length hnil
      simp only [List.length_drop, List.length_nil] at hlen
      omega
    rw [chunkFrom, dif_pos h, ih]
    conv_rhs => rw [chunkList, dif_pos hcond]
    rw [List.drop_drop]
  | case2 i h =>
    rw [chunkFrom, dif_neg h, chunkList, dif_neg]
    intro hcon
    rcases hcon with ⟨hne, hb⟩
    apply h
    refine ⟨?_, hb⟩
    by_contra hle
    push_neg at hle
    exact hne (List.drop_eq_nil_of_le (by omega))

theorem chunkList_flatten (l : List String) (b : Nat) (hb : 0 < b) :
    (chunkList l b).flatten = l := by
  induction l, b using chunkList.induct with
  | case1 l b h ih =>
    rw [chunkList, dif_pos h, List.flatten_cons, ih h.2, List.take_append_drop]
  | case2 l b h =>
    rw [chunkList, dif_neg h]
    have : l = [] := by
      by_contra hne
      exact h ⟨hne, hb⟩
    simp [this]

theorem chunkList_length (l : List String) (b : Nat) (hb : 0 < b) :
    (chunkList l b).length = (l.length + b - 1) / b := by
  induction l, b using chunkList.induct with
  | case1 l b h ih =>
    rw [chunkList, dif_pos h]
    have hpos : 0 < l.length := List.length_pos.mpr h.1
    simp only [List.length_cons, ih h.2, List.length_drop]
    rcases Nat.lt_or_ge b l.length with hlt | hge
    · have e1 : l.length - b + b - 1 = (l.length - b - 1) + b := by omega
      have e2 : l.length + b - 1 = (l.length - 1) + b := by omega
      have e3 : l.length - 1 = (l.length - b - 1) + b := by omega
      rw [e1, Nat.add_div_right _ h.2, e2, Nat.add_div_right _ h.2, e3,
        Nat.add_div_right _ h.2]
    · have e0 : l.length - b = 0 := by omega
      have e2 : l.length + b - 1 = (l.length - 1) + b := by omega
      rw [e0, e2, Nat.add_div_right _ h.2,
        Nat.div_eq_of_lt (show 0 + b - 1 < b by omega),
        Nat.div_eq_of_lt (show l.length - 1 < b by omega)]
  | case2 l b h =>
    rw [chunkList, dif_neg h]
    have : l = [] := by
      by_contra hne
      exact h ⟨hne, hb⟩
    subst this
    simp only [List.length_nil, List.length_nil]
    exact (Nat.div_eq_of_lt (by omega)).symm

theorem chunkList_eq_nil_iff (l : List String) (b : Nat) (hb : 0 < b) :
    chunkList l b = [] ↔ l = [] := by
  rw [chunkList]
  by_cases h : l ≠ [] ∧ 0 < b
  · rw [dif_pos h]
    simp [h.1]
  · rw [dif_neg h]
    simp only [true_iff]
    by_contra hne
    exact h ⟨hne, hb⟩

theorem chunkList_mem_length (l : List String) (b : Nat) (hb : 0 < b) :
    ∀ ch ∈ chunkList l b, 0 < ch.length ∧ ch.length ≤ b := by
  induction l, b using chunkList.induct with
  | case1 l b h ih =>
    rw [chunkList, dif_pos h]
    intro ch hch
    rcases List.mem_cons.mp hch with hhd | htl
    · subst hhd
      have hpos : 0 < l.length := List.length_pos.mpr h.1
      simp only [List.length_take]
      omega
    · exact ih h.2 ch htl
  | case2 l b h =>
    rw [chunkList, dif_neg h]
    intro ch hch
    simp at hch

theorem chunkList_dropLast_length (l : List String) (b : Nat) (hb : 0 < b) :
    ∀ ch ∈ (chunkList l b).dropLast, ch.length = b := by
  induction l, b using chunkList.induct with
  | case1 l b h ih =>
    rw [chunkList, dif_pos h]
    by_cases hrest : chunkList (l.drop b) b = []
    · rw [hrest]
      intro ch hch
      simp at hch
    · rw [List.dropLast_cons_of_ne_nil hrest]
      intro ch hch
      rcases List.mem_cons.mp hch with hhd | htl
      · subst hhd
        have hdr : l.drop b ≠ [] := by
          intro hcon
          exact hrest (by rw [hcon, chunkList, dif_neg (by simp)])
        have hlen : b < l.length := by
          by_contra hle
          push_neg at hle
          exact hdr (List.drop_eq_nil_of_le hle)
        simp only [List.length_take]
        omega
      · exact ih h.2 ch htl
  | case2 l b h =>
    rw [chunkList, dif_neg h]
    intro ch hch
    simp at hch

theorem batches_flatten (l : List String) (b : Nat) (hb : 0 < b) :
    (batches l b).flatten = l := by
  rw [batches, chunkFrom_eq_chunkList, List.drop_zero, chunkList_flatten l b hb]

/-- C3: for a non-empty symbol list of length N and batch size B > 0, the
orchestrator produces exactly `⌈N/B⌉ = (N + B - 1) / B` batches (the very
expression `totalBatches` is computed by), their concatenation is the input
list (so every identifier lands in exactly one batch, in input order), every
batch except possibly the last has length B, and every batch is non-empty with
length at most B. -/
theorem fetchAllCandles_batch_partition (l : List String) (b : Nat)
    (hb : 0 < b) (hne : l ≠ []) :
    (batches l b).length = (l.length + b - 1) / b ∧
    (batches l b).flatten = l ∧
    (∀ ch ∈ (batches l b).dropLast, ch.length = b) ∧
    (∀ ch ∈ batches l b, 0 < ch.length ∧ ch.length ≤ b) := by
  have hkey : batches l b = chunkList l b := by
    rw [batches, chunkFrom_eq_chunkList, List.drop_zero]
  refine ⟨?_, ?_, ?_, ?_⟩
  · rw [hkey, chunkList_length l b hb]
  · exact batches_flatten l b hb
  · rw [hkey]
    exact chunkList_dropLast_length l b hb
  · rw [hkey]
    exact chunkList_mem_length l b hb

/-- Witness for C3: five symbols in batches of two. -/
theorem fetchAllCandles_batch_partition_witness :
    (batches ["A", "B", "C", "D", "E"] 2).length = (5 + 2 - 1) / 2 ∧
    (batches ["A", "B", "C", "D", "E"] 2).flatten = ["A", "B", "C", "D", "E"] ∧
    (∀ ch ∈ (batches ["A", "B", "C", "D", "E"] 2).dropLast, ch.length = 2) ∧
    (∀ ch ∈ batches ["A", "B", "C", "D", "E"] 2, 0 < ch.length ∧ ch.length ≤ 2) := by
  have h := fetchAllCandles_batch_partition ["A", "B", "C", "D", "E"] 2
    (by decide) (by decide)
  simpa using h

/-! ## C8 and C1: the orchestrator cycle -/

theorem Cache.Get_Set (c : Cache) (now : Nat) (s : String) (cs : List Candle) (s' : String) :
    (Cache.Set c now s cs).Get s' =
      if s = s' then some { symbol := s, candles := cs, lastUpdate := now } else c.Get s' := by
  simp [Cache.Get, Cache.Set, mapLookup_mapInsert]

/-- C8: a refresh cycle that reads an empty symbol list terminates at once
with no side effects: the cache (its data, both timestamps included) is
unchanged, no fetch is launched and nothing counts as successful. -/
theorem fetchAllCandles_empty_symbols_noop (c : Cache) (now : Nat)
    (fetch : String → Except GoErr (List Candle)) (batchSize : Nat)
    (perm : List String → List String) (h : c.GetSymbols = []) :
    fetchAllCandles c now fetch batchSize perm =
      { cache := c, successCount := 0, fetched := [] } ∧
    (fetchAllCandles c now fetch batchSize perm).cache.GetLastUpdate = c.GetLastUpdate := by
  have h0 : (c.GetSymbols).length = 0 := by rw [h]; rfl
  constructor
  · simp [fetchAllCandles, h0]
  · simp [fetchAllCandles, h0]

/-- Witness for C8 on a fresh cache. -/
theorem fetchAllCandles_empty_symbols_noop_witness :
    fetchAllCandles NewCache 7 (fun _ => .error "down") 10 id =
      { cache := NewCache, successCount := 0, fetched := [] } ∧
    (fetchAllCandles NewCache 7 (fun _ => .error "down") 10 id).cache.GetLastUpdate =
      NewCache.GetLastUpdate :=
  fetchAllCandles_empty_symbols_noop NewCache 7 (fun _ => .error "down") 10 id rfl

theorem collectResults_get (fetch : String → Except GoErr (List Candle)) (now : Nat)
    (order : List String) :
    ∀ (acc : Cache × Nat) (sym : String),
      (collectResults fetch now order acc).1.Get sym =
        if sym ∈ order then some (entryFor fetch now sym) else acc.1.Get sym := by
  induction order with
  | nil =>
    intro acc sym
    simp [collectResults]
  | cons hd tl ih =>
    intro acc sym
    rw [collectResults]
    cases hf : fetch hd with
    | error e =>
      rw [ih]
      by_cases hmem : sym ∈ tl
      · simp [hmem]
      · by_cases heq : hd = sym
        · subst heq
          simp [hmem, Cache.Get_Set, entryFor, hf]
        · have hne2 : ¬ sym = hd := fun hh => heq hh.symm
          simp [hmem, hne2, Cache.Get_Set, heq]
    | ok cs =>
      rw [ih]
      by_cases hmem : sym ∈ tl
      · simp [hmem]
      · by_cases heq : hd = sym
        · subst heq
          simp [hmem, Cache.Get_Set, entryFor, hf]
        · have hne2 : ¬ sym = hd := fun hh => heq hh.symm
          simp [hmem, hne2, Cache.Get_Set, heq]

theorem collectResults_count (fetch : String → Except GoErr (List Candle)) (now : Nat)
    (order : List String) :
    ∀ (acc : Cache × Nat),
      (collectResults fetch now order acc).2 =
        acc.2 + order.countP (fun s => isOkFetch (fetch s)) := by
  induction order with
  | nil =>
    intro acc
    simp [collectResults]
  | cons hd tl ih =>
    intro acc
    rw [collectResults]
    cases hf : fetch hd with
    | error e =>
      rw [ih, List.countP_cons]
      simp [isOkFetch, hf]
    | ok cs =>
      rw [ih, List.countP_cons]
      simp [isOkFetch, hf]
      omega

theorem collectResults_append (fetch : String → Except GoErr (List Candle)) (now : Nat)
    (l1 l2 : List String) :
    ∀ (acc : Cache × Nat),
      collectResults fetch now (l1 ++ l2) acc =
        collectResults fetch now l2 (collectResults fetch now l1 acc) := by
  induction l1 with
  | nil =>
    intro acc
    simp [collectResults]
  | cons hd tl ih =>
    intro acc
    rw [List.cons_append, collectResults, collectResults, ih]

theorem foldl_collect_batches (fetch : String → Except GoErr (List Candle)) (now : Nat)
    (perm : List String → List String) (bs : List (List String)) :
    ∀ (acc : Cache × Nat),
      bs.foldl (fun st bt => collectResults fetch now (perm bt) st) acc =
        collectResults fetch now ((bs.map perm).flatten) acc := by
  induction bs with
  | nil =>
    intro acc
    simp [collectResults]
  | cons hd tl ih =>
    intro acc
    rw [List.foldl_cons, List.map_cons, List.flatten_cons, collectResults_append, ih]

/-- C1: in any refresh cycle and for any per-batch completion order, a symbol
whose retry-wrapped fetch terminally failed ends up cached with an empty
candle list (overwriting whatever was there) and a symbol whose fetch
succeeded ends up cached with exactly the returned candles; the success count
counts exactly the successful symbols. -/
theorem fetchAllCandles_failure_to_empty
    (c : Cache) (now : Nat) (fetch : String → Except GoErr (List Candle))
    (batchSize : Nat) (perm : List String → List String)
    (hb : 0 < batchSize) (hperm : ∀ bt, (perm bt).Perm bt)
    (x y : String) (e : GoErr) (bars : List Candle)
    (hx : x ∈ c.GetSymbols) (hy : y ∈ c.GetSymbols)
    (hfx : fetch x = .error e) (hfy : fetch y = .ok bars) :
    (fetchAllCandles c now fetch batchSize perm).cache.Get x
        = some { symbol := x, candles := [], lastUpdate := now } ∧
    (fetchAllCandles c now fetch batchSize perm).cache.Get y
        = some { symbol := y, candles := bars, lastUpdate := now } ∧
    (fetchAllCandles c now fetch batchSize perm).successCount
        = (c.GetSymbols).countP (fun s => isOkFetch (fetch s)) := by
  have hlen : ¬ ((c.GetSymbols).length = 0) := by
    intro h0
    rw [List.length_eq_zero] at h0
    rw [h0] at hx
    simp at hx
  have hflat : (batches (c.GetSymbols) batchSize).flatten = c.GetSymbols :=
    batches_flatten (c.GetSymbols) batchSize hb
  have hmem : ∀ z : String, z ∈ c.GetSymbols →
      z ∈ ((batches (c.GetSymbols) batchSize).map perm).flatten := by
    intro z hz
    rw [← hflat] at hz
    rcases List.mem_flatten.mp hz with ⟨bt, hbt, hzbt⟩
    exact List.mem_flatten.mpr ⟨perm bt, List.mem_map_of_mem perm hbt, ((hperm bt).mem_iff).mpr hzbt⟩
  have hcount : (((batches (c.GetSymbols) batchSize).map perm).flatten).countP
      (fun s => isOkFetch (fetch s)) = (c.GetSymbols).countP (fun s => isOkFetch (fetch s)) := by
    conv_rhs => rw [← hflat]
    rw [List.countP_flatten, List.countP_flatten, List.map_map]
    congr 1
    apply List.map_eq_map_iff.mpr
    intro bt _
    simp only [Function.comp_apply]
    exact (hperm bt).countP_eq _
  refine ⟨?_, ?_, ?_⟩
  · simp only [fetchAllCandles, if_neg hlen, foldl_collect_batches, collectResults_get,
      if_pos (hmem x hx)]
    simp [entryFor, hfx]
  · simp only [fetchAllCandles, if_neg hlen, foldl_collect_batches, collectResults_get,
      if_pos (hmem y hy)]
    simp [entryFor, hfy]
  · simp only [fetchAllCandles, if_neg hlen, foldl_collect_batches, collectResults_count]
    rw [hcount]
    omega

/-- Witness for C1: two symbols, `X` terminally failing and `Y` succeeding
with one candle, identity completion order. -/
theorem fetchAllCandles_failure_to_empty_witness :
    (fetchAllCandles (Cache.SetSymbols NewCache 1 ["X", "Y"]) 7
        (fun s => if s = "X" then .error "boom" else .ok [sampleCandle]) 10 id).cache.Get "X"
        = some { symbol := "X", candles := [], lastUpdate := 7 } ∧
    (fetchAllCandles (Cache.SetSymbols NewCache 1 ["X", "Y"]) 7
        (fun s => if s = "X" then .error "boom" else .ok [sampleCandle]) 10 id).cache.Get "Y"
        = some { symbol := "Y", candles := [sampleCandle], lastUpdate := 7 } ∧
    (fetchAllCandles (Cache.SetSymbols NewCache 1 ["X", "Y"]) 7
        (fun s => if s = "X" then .error "boom" else .ok [sampleCandle]) 10 id).successCount
        = ((Cache.SetSymbols NewCache 1 ["X", "Y"]).GetSymbols).countP
            (fun s => isOkFetch ((fun s => if s = "X" then .error "boom"
              else .ok [sampleCandle]) s)) :=
  fetchAllCandles_failure_to_empty
    (Cache.SetSymbols NewCache 1 ["X", "Y"]) 7
    (fun s => if s = "X" then .error "boom" else .ok [sampleCandle]) 10 id
    (by decide) (fun bt => List.Perm.refl bt)
    "X" "Y" "boom" [sampleCandle] (by decide) (by decide) (by decide) (by decide)

/-! ## C9 and C4: the identifier-refresh routine -/

theorem runSymbolFetcher_cachedSymbols (trace : List (Nat × Except GoErr (List String))) :
    ∀ (st : SymbolFetcherState),
      (runSymbolFetcher st trace).cachedSymbols = lastGoodUniverse st.cachedSymbols trace := by
  induction trace with
  | nil =>
    intro st
    rfl
  | cons step rest ih =>
    intro st
    rcases step with ⟨t, r⟩
    show (runSymbolFetcher (fetchSymbols st t r).1 rest).cachedSymbols = _
    cases r with
    | error e =>
      have hstep : (fetchSymbols st t (.error e)).1.cachedSymbols = st.cachedSymbols := by
        by_cases hfb : st.cachedSymbols.length > 0 <;> simp [fetchSymbols, hfb]
      have hlast : lastGoodUniverse st.cachedSymbols ((t, .error e) :: rest)
          = lastGoodUniverse st.cachedSymbols rest := rfl
      rw [hlast, ih ((fetchSymbols st t (.error e)).1), hstep]
    | ok symbols =>
      have hlast : lastGoodUniverse st.cachedSymbols ((t, .ok symbols) :: rest)
          = lastGoodUniverse (if symbols.length = 0 then st.cachedSymbols else symbols) rest :=
        rfl
      by_cases hl : symbols.length = 0
      · have hstep : (fetchSymbols st t (.ok symbols)).1 = st := by
          simp [fetchSymbols, hl]
        rw [hstep, ih st, hlast, if_pos hl]
      · have hstep : (fetchSymbols st t (.ok symbols)).1.cachedSymbols = symbols := by
          simp [fetchSymbols, hl]
        rw [ih ((fetchSymbols st t (.ok symbols)).1), hstep, hlast, if_neg hl]

theorem symbolFetcher_symbols_eq_fallback (trace : List (Nat × Except GoErr (List String))) :
    ∀ (st : SymbolFetcherState), st.cache.symbols = st.cachedSymbols →
      (runSymbolFetcher st trace).cache.symbols = (runSymbolFetcher st trace).cachedSymbols := by
  induction trace with
  | nil =>
    intro st h
    exact h
  | cons step rest ih =>
    intro st h
    rcases step with ⟨t, r⟩
    show (runSymbolFetcher (fetchSymbols st t r).1 rest).cache.symbols =
      (runSymbolFetcher (fetchSymbols st t r).1 rest).cachedSymbols
    cases r with
    | error e =>
      by_cases hfb : st.cachedSymbols.length > 0
      · have hstep : (fetchSymbols st t (.error e)).1 =
            { cache := st.cache.SetSymbols t st.cachedSymbols,
              cachedSymbols := st.cachedSymbols } := by
          simp [fetchSymbols, hfb]
        rw [hstep]
        exact ih _ rfl
      · have hstep : (fetchSymbols st t (.error e)).1 = st := by
          simp [fetchSymbols, hfb]
        rw [hstep]
        exact ih _ h
    | ok symbols =>
      by_cases hl : symbols.length = 0
      · have hstep : (fetchSymbols st t (.ok symbols)).1 = st := by
          simp [fetchSymbols, hl]
        rw [hstep]
        exact ih _ h
      · have hstep : (fetchSymbols st t (.ok symbols)).1 =
            { cache := st.cache.SetSymbols t symbols, cachedSymbols := symbols } := by
          simp [fetchSymbols, hl]
        rw [hstep]
        exact ih _ rfl

/-- C9: one `fetchSymbols` run writes to the cache only a non-empty list, and
only in two cases: the fetched universe was non-empty (that list is written
and becomes the fallback) or the fetch failed with a non-empty fallback held
(the fallback is written); moreover along any run history from a fresh actor,
the fallback equals the most recent non-empty successfully fetched
universe. -/
theorem symbolFetcher_write_invariants :
    (∀ (st : SymbolFetcherState) (now : Nat) (r : Except GoErr (List String))
        (written : List String),
      (fetchSymbols st now r).2 = some written →
        written ≠ [] ∧
        ((∃ e, r = .error e ∧ written = st.cachedSymbols ∧ st.cachedSymbols ≠ []) ∨
         (r = .ok written ∧ (fetchSymbols st now r).1.cachedSymbols = written))) ∧
    (∀ (trace : List (Nat × Except GoErr (List String))),
      (runSymbolFetcher initialSymbolFetcherState trace).cachedSymbols =
        lastGoodUniverse [] trace) := by
  constructor
  · intro st now r written hw
    cases r with
    | error e =>
      by_cases hfb : st.cachedSymbols.length > 0
      · simp only [fetchSymbols, if_pos hfb] at hw
        have hwr : written = st.cachedSymbols := by
          exact (Option.some_inj.mp hw).symm
        subst hwr
        refine ⟨?_, Or.inl ⟨e, rfl, rfl, ?_⟩⟩
        · intro hnil
          rw [hnil] at hfb
          simp at hfb
        · intro hnil
          rw [hnil] at hfb
          simp at hfb
      · simp [fetchSymbols, if_neg hfb] at hw
    | ok symbols =>
      by_cases hl : symbols.length = 0
      · have hnil : symbols = [] := List.length_eq_zero.mp hl
        simp [fetchSymbols, hnil] at hw
      · have hne : symbols ≠ [] := by
          intro hnil
          rw [hnil] at hl
          simp at hl
        simp only [fetchSymbols, if_neg hl] at hw
        have hwr : written = symbols := by
          simpa [hne] using hw.symm
        subst hwr
        refine ⟨hne, Or.inr ⟨rfl, ?_⟩⟩
        simp [fetchSymbols, hne]
  · intro trace
    exact runSymbolFetcher_cachedSymbols trace initialSymbolFetcherState

/-- Counterexample for C4 as frozen: after one successful refresh at time 1,
a failed refresh at time 2 writes the fallback and leaves the symbol list's
content unchanged, but it does change the Cache's identifier state: the
identifier "last updated" timestamp moves from 1 to 2, so the Identifier Set's
state as previously held (list plus timestamp, per the spec's data model) is
not retained unchanged. -/
theorem fetchSymbols_fallback_timestamp_cex :
    (fetchSymbols (runSymbolFetcher initialSymbolFetcherState [(1, .ok ["BTC"])]) 2
        (.error "down")).2 = some ["BTC"] ∧
    (fetchSymbols (runSymbolFetcher initialSymbolFetcherState [(1, .ok ["BTC"])]) 2
        (.error "down")).1.cache.symbols =
      (runSymbolFetcher initialSymbolFetcherState [(1, .ok ["BTC"])]).cache.symbols ∧
    (runSymbolFetcher initialSymbolFetcherState [(1, .ok ["BTC"])]).cache.GetSymbolUpdate = 1 ∧
    (fetchSymbols (runSymbolFetcher initialSymbolFetcherState [(1, .ok ["BTC"])]) 2
        (.error "down")).1.cache.GetSymbolUpdate = 2 ∧
    (fetchSymbols (runSymbolFetcher initialSymbolFetcherState [(1, .ok ["BTC"])]) 2
        (.error "down")).1.cache ≠
      (runSymbolFetcher initialSymbolFetcherState [(1, .ok ["BTC"])]).cache := by
  decide

/-- C4 (amended): in any run of the identifier-refresh routine, reached from a
fresh actor, in which the universe fetch fails: if a fallback from a prior
successful run exists, the fallback is written into the Cache, the identifier
list content is unchanged, the candle data and its timestamp are untouched,
and only the identifier "last updated" timestamp is refreshed to the current
time; if no fallback exists, no Cache write occurs at all and the state is
completely unchanged. -/
theorem fetchSymbols_failure_fallback
    (trace : List (Nat × Except GoErr (List String))) (st : SymbolFetcherState)
    (now : Nat) (e : GoErr)
    (hst : st = runSymbolFetcher initialSymbolFetcherState trace) :
    (st.cachedSymbols ≠ [] →
      (fetchSymbols st now (.error e)).2 = some st.cachedSymbols ∧
      (fetchSymbols st now (.error e)).1.cache.symbols = st.cache.symbols ∧
      (fetchSymbols st now (.error e)).1.cache.data = st.cache.data ∧
      (fetchSymbols st now (.error e)).1.cache.lastUpdate = st.cache.lastUpdate ∧
      (fetchSymbols st now (.error e)).1.cache.symbolUpdate = now) ∧
    (st.cachedSymbols = [] → fetchSymbols st now (.error e) = (st, none)) := by
  have hinv : st.cache.symbols = st.cachedSymbols := by
    rw [hst]
    exact symbolFetcher_symbols_eq_fallback trace initialSymbolFetcherState rfl
  constructor
  · intro hfb
    have hlen : st.cachedSymbols.length > 0 := by
      cases hcs : st.cachedSymbols with
      | nil => exact absurd hcs hfb
      | cons a l => simp [hcs]
    refine ⟨?_, ?_, ?_, ?_, ?_⟩ <;>
      simp [fetchSymbols, if_pos hlen, Cache.SetSymbols, hinv]
  · intro hfb
    have hlen : ¬ (st.cachedSymbols.length > 0) := by
      rw [hfb]
      simp
    simp [fetchSymbols, if_neg hlen]

/-- Witness for C4 (amended): both branches exercised, after one successful
refresh (fallback `["BTC"]`) and from the fresh state (no fallback). -/
theorem fetchSymbols_failure_fallback_witness :
    ((runSymbolFetcher initialSymbolFetcherState [(1, .ok ["BTC"])]).cachedSymbols ≠ [] →
      (fetchSymbols (runSymbolFetcher initialSymbolFetcherState [(1, .ok ["BTC"])]) 2
          (.error "down")).2 =
        some (runSymbolFetcher initialSymbolFetcherState [(1, .ok ["BTC"])]).cachedSymbols ∧
      (fetchSymbols (runSymbolFetcher initialSymbolFetcherState [(1, .ok ["BTC"])]) 2
          (.error "down")).1.cache.symbols =
        (runSymbolFetcher initialSymbolFetcherState [(1, .ok ["BTC"])]).cache.symbols ∧
      (fetchSymbols (runSymbolFetcher initialSymbolFetcherState [(1, .ok ["BTC"])]) 2
          (.error "down")).1.cache.data =
        (runSymbolFetcher initialSymbolFetcherState [(1, .ok ["BTC"])]).cache.data ∧
      (fetchSymbols (runSymbolFetcher initialSymbolFetcherState [(1, .ok ["BTC"])]) 2
          (.error "down")).1.cache.lastUpdate =
        (runSymbolFetcher initialSymbolFetcherState [(1, .ok ["BTC"])]).cache.lastUpdate ∧
      (fetchSymbols (runSymbolFetcher initialSymbolFetcherState [(1, .ok ["BTC"])]) 2
          (.error "down")).1.cache.symbolUpdate = 2) ∧
    ((runSymbolFetcher initialSymbolFetcherState [(1, .ok ["BTC"])]).cachedSymbols = [] →
      fetchSymbols (runSymbolFetcher initialSymbolFetcherState [(1, .ok ["BTC"])]) 2
          (.error "down") =
        (runSymbolFetcher initialSymbolFetcherState [(1, .ok ["BTC"])], none)) :=
  fetchSymbols_failure_fallback [(1, .ok ["BTC"])]
    (runSymbolFetcher initialSymbolFetcherState [(1, .ok ["BTC"])]) 2 "down" rfl

/-! ## C7: the universe filter -/

theorem fetchPerpetualSymbols_acc (univ : List MetaUniverseItem) :
    ∀ (acc : List String),
      univ.foldl
        (fun symbols item =>
          if item.name ≠ "" && !item.isDelisted then symbols ++ [item.name] else symbols)
        acc =
      acc ++ (univ.filter fun it => it.name ≠ "" && !it.isDelisted).map
        (fun it => it.name) := by
  induction univ with
  | nil =>
    intro acc
    simp
  | cons hd tl ih =>
    intro acc
    rw [List.foldl_cons]
    by_cases hp : hd.name ≠ "" && !hd.isDelisted
    · have hp' : ¬hd.name = "" ∧ hd.isDelisted = false := by
        simpa [Bool.and_eq_true, Bool.not_eq_true'] using hp
      rw [if_pos hp, ih]
      simp [List.filter_cons, hp']
    · have hp' : ¬(¬hd.name = "" ∧ hd.isDelisted = false) := by
        simpa [Bool.and_eq_true, Bool.not_eq_true'] using hp
      rw [if_neg hp, ih]
      simp [List.filter_cons, hp']

theorem fetchPerpetualSymbols_eq (univ : List MetaUniverseItem) :
    FetchPerpetualSymbols univ =
      (univ.filter fun it => it.name ≠ "" && !it.isDelisted).map (fun it => it.name) := by
  rw [FetchPerpetualSymbols, fetchPerpetualSymbols_acc univ []]
  rfl

/-- Counterexample for C7 as frozen: when a delisted entry and a live entry
share the name "BTC", the returned list is exactly the live names, yet the
delisted entry's name does appear in it — so "no delisted entry's name appears
in the result" fails for universes with duplicate names. -/
theorem fetchPerpetualSymbols_duplicate_name_cex :
    FetchPerpetualSymbols
        [{ name := "BTC", isDelisted := true }, { name := "BTC", isDelisted := false }] =
      ["BTC"] ∧
    ({ name := "BTC", isDelisted := true } : MetaUniverseItem) ∈
      [({ name := "BTC", isDelisted := true } : MetaUniverseItem),
       { name := "BTC", isDelisted := false }] ∧
    ({ name := "BTC", isDelisted := true } : MetaUniverseItem).isDelisted = true ∧
    "BTC" ∈ FetchPerpetualSymbols
        [{ name := "BTC", isDelisted := true }, { name := "BTC", isDelisted := false }] := by
  decide

/-- C7 (amended): `FetchPerpetualSymbols` returns exactly the names, in input
order, of the entries that have a non-empty name and are not marked delisted;
every returned identifier is non-empty; and provided entry names are pairwise
distinct, no delisted entry's name appears in the result. -/
theorem fetchPerpetualSymbols_filter_spec (univ : List MetaUniverseItem)
    (hnodup : (univ.map (fun it => it.name)).Nodup) :
    FetchPerpetualSymbols univ =
      (univ.filter fun it => it.name ≠ "" && !it.isDelisted).map (fun it => it.name) ∧
    (∀ s ∈ FetchPerpetualSymbols univ, s ≠ "") ∧
    (∀ it ∈ univ, it.isDelisted = true → it.name ∉ FetchPerpetualSymbols univ) := by
  refine ⟨fetchPerpetualSymbols_eq univ, ?_, ?_⟩
  · intro s hs
    rw [fetchPerpetualSymbols_eq] at hs
    rcases List.mem_map.mp hs with ⟨it, hit, hname⟩
    have hp := List.of_mem_filter hit
    subst hname
    simp only [Bool.and_eq_true, decide_eq_true_eq, Bool.not_eq_true', ne_eq] at hp
    exact hp.1
  · intro it hit hdel hmem
    rw [fetchPerpetualSymbols_eq] at hmem
    rcases List.mem_map.mp hmem with ⟨it', hit', hname⟩
    have hp := List.of_mem_filter hit'
    simp only [Bool.and_eq_true, decide_eq_true_eq, Bool.not_eq_true', ne_eq] at hp
    have hmem' : it' ∈ univ := List.mem_of_mem_filter hit'
    have heq : it' = it :=
      List.inj_on_of_nodup_map hnodup hmem' hit hname
    rw [heq] at hp
    rw [hdel] at hp
    exact absurd hp.2 (by simp)

/-- Witness for C7 (amended) on a universe with distinct names: one live
entry, one empty-named entry, one delisted entry. -/
theorem fetchPerpetualSymbols_filter_spec_witness :
    FetchPerpetualSymbols
        [{ name := "BTC", isDelisted := false }, { name := "", isDelisted := false },
         { name := "OLD", isDelisted := true }] =
      (([{ name := "BTC", isDelisted := false }, { name := "", isDelisted := false },
         { name := "OLD", isDelisted := true }] : List MetaUniverseItem).filter
          fun it => it.name ≠ "" && !it.isDelisted).map (fun it => it.name) ∧
    (∀ s ∈ FetchPerpetualSymbols
        [{ name := "BTC", isDelisted := false }, { name := "", isDelisted := false },
         { name := "OLD", isDelisted := true }], s ≠ "") ∧
    (∀ it ∈ ([{ name := "BTC", isDelisted := false }, { name := "", isDelisted := false },
         { name := "OLD", isDelisted := true }] : List MetaUniverseItem),
      it.isDelisted = true → it.name ∉ FetchPerpetualSymbols
        [{ name := "BTC", isDelisted := false }, { name := "", isDelisted := false },
         { name := "OLD", isDelisted := true }]) :=
  fetchPerpetualSymbols_filter_spec
    [{ name := "BTC", isDelisted := false }, { name := "", isDelisted := false },
     { name := "OLD", isDelisted := true }] (by decide)

/-! ## C5: wire decoding of numeric candle fields -/

/-- Counterexample for C5 as frozen: a candle payload whose open field is a
number-typed JSON value (all other fields well-formed) fails to unmarshal —
the `,string` struct tag on the price/volume fields rejects number-typed
values — so the window fetch reports a parse error instead of succeeding. -/
theorem hyperliquidCandle_numeric_encoding_cex :
    unmarshalHyperliquidCandle
        { t := .jnum 1000, o := .jnum 1, h := .jstr "2", l := .jstr "1",
          c := .jstr "1.5", v := .jstr "3", n := .jnum 0 } = none ∧
    FetchCandlesDecode
        [{ t := .jnum 1000, o := .jnum 1, h := .jstr "2", l := .jstr "1",
           c := .jstr "1.5", v := .jstr "3", n := .jnum 0 }] =
      .error "failed to parse response" ∧
    unmarshalHyperliquidCandle
        { t := .jnum 1000, o := .jstr "1", h := .jstr "2", l := .jstr "1",
          c := .jstr "2", v := .jstr "3", n := .jnum 0 } =
      some { t := 1000, o := 1, h := 2, l := 1, c := 2, v := 3, n := 0 } := by
  refine ⟨by decide, by decide, by decide⟩

/-- C5 (amended): the decoding of a candle payload succeeds exactly on the
string encoding of the price/volume fields: if the timestamp and trade-count
fields are integer-valued JSON numbers and each of open/high/low/close/volume
is a JSON string whose contents Go's number grammar accepts, unmarshalling
succeeds; whereas any number-typed open/high/low/close/volume field makes
unmarshalling (and hence the window fetch) fail, regardless of the other
fields. A string field decodes to exactly the parsed numeric value, and the
window fetch turns a one-candle payload into the converted candle on success
and into the parse error on failure. -/
theorem hyperliquidCandle_string_encoding :
    (∀ (r : RawCandle),
      (decodeInt64 r.t).isSome → (decodeInt64 r.n).isSome →
      (∀ f ∈ [r.o, r.h, r.l, r.c, r.v], ∃ s, f = .jstr s ∧ (parseJsonNumber s).isSome) →
      (unmarshalHyperliquidCandle r).isSome) ∧
    (∀ (r : RawCandle) (q : ℚ),
      (r.o = .jnum q ∨ r.h = .jnum q ∨ r.l = .jnum q ∨ r.c = .jnum q ∨ r.v = .jnum q) →
      unmarshalHyperliquidCandle r = none) ∧
    (∀ (s : String) (q : ℚ), parseJsonNumber s = some q →
      decodeStringFloat (.jstr s) = some q) ∧
    (∀ (r : RawCandle) (hc : HyperliquidCandle), unmarshalHyperliquidCandle r = some hc →
      FetchCandlesDecode [r] = .ok [convertCandle hc]) ∧
    (∀ (r : RawCandle), unmarshalHyperliquidCandle r = none →
      FetchCandlesDecode [r] = .error "failed to parse response") := by
  refine ⟨?_, ?_, ?_, ?_, ?_⟩
  · intro r ht hn hfields
    obtain ⟨tv, htv⟩ := Option.isSome_iff_exists.mp ht
    obtain ⟨nv, hnv⟩ := Option.isSome_iff_exists.mp hn
    obtain ⟨os, hos, hpo⟩ := hfields r.o (by simp)
    obtain ⟨oq, hoq⟩ := Option.isSome_iff_exists.mp hpo
    obtain ⟨hs, hhs, hph⟩ := hfields r.h (by simp)
    obtain ⟨hq, hhq⟩ := Option.isSome_iff_exists.mp hph
    obtain ⟨ls, hls, hpl⟩ := hfields r.l (by simp)
    obtain ⟨lq, hlq⟩ := Option.isSome_iff_exists.mp hpl
    obtain ⟨cs, hcs, hpc⟩ := hfields r.c (by simp)
    obtain ⟨cq, hcq⟩ := Option.isSome_iff_exists.mp hpc
    obtain ⟨vs, hvs, hpv⟩ := hfields r.v (by simp)
    obtain ⟨vq, hvq⟩ := Option.isSome_iff_exists.mp hpv
    simp [unmarshalHyperliquidCandle, htv, hnv, hos, hhs, hls, hcs, hvs,
      decodeStringFloat, hoq, hhq, hlq, hcq, hvq]
  · intro r q hnum
    rcases hnum with h | h | h | h | h <;>
      simp [unmarshalHyperliquidCandle, h, decodeStringFloat]
  · intro s q h
    exact h
  · intro r hc h
    simp [FetchCandlesDecode, List.mapM, List.mapM.loop, h]
  · intro r h
    simp [FetchCandlesDecode, List.mapM, List.mapM.loop, h]

/-! ## C6: what `GetAll` copies and what it shares -/

theorem mapLookup_foldl_insert {β : Type} (m : List (String × β)) :
    ∀ (acc : List (String × β)) (k : String), (m.map Prod.fst).Nodup →
      mapLookup k (m.foldl (fun r kv => mapInsert kv.1 kv.2 r) acc) =
        (match mapLookup k m with
         | some v => some v
         | none => mapLookup k acc) := by
  induction m with
  | nil =>
    intro acc k _
    rfl
  | cons hd tl ih =>
    intro acc k hnodup
    rw [List.map_cons, List.nodup_cons] at hnodup
    rw [List.foldl_cons, ih _ k hnodup.2]
    by_cases hak : hd.1 = k
    · have hnone : mapLookup k tl = none := mapLookup_eq_none k tl (hak ▸ hnodup.1)
      have hcons : mapLookup k (hd :: tl) = some hd.2 := by
        simp [mapLookup, hak]
      rw [hnone, hcons]
      simp [mapLookup_mapInsert, hak]
    · have hcons : mapLookup k (hd :: tl) = mapLookup k tl := by
        simp [mapLookup, hak]
      rw [hcons]
      cases hlk : mapLookup k tl with
      | some w => simp
      | none => simp [mapLookup_mapInsert, hak]

/-- Counterexample for C6 as frozen: the mapping returned by `GetAll` carries
the cache entry's slice reference unchanged, so mutating one bar in place
through that reference — exactly what Go's `entry.Candles[0] = c` does to the
shared backing array — changes what a subsequent `getSeries("X")` returns.
The returned structure is therefore not a deep defensive copy. -/
theorem getAll_deep_copy_cex :
    c6ReturnedRef = 0 ∧
    getSeriesBars c6Cache c6Store "X" = some [sampleCandle] ∧
    getSeriesBars c6Cache (writeCandle c6Store c6ReturnedRef 0 mutatedCandle) "X" =
      some [mutatedCandle] ∧
    sampleCandle ≠ mutatedCandle := by
  refine ⟨by decide, by decide, by decide, by decide⟩

/-- C6 (amended): `GetAll` returns a fresh mapping that holds, for every key,
exactly the entry the cache holds at call time — so the mapping itself is a
point-in-time copy and replacing, adding or removing entries in it cannot
affect the cache's own mapping — but each returned entry carries the cache
entry's slice reference, so resolving it in any store yields exactly what
`getSeries` reads there: the bar storage is shared, and in-place mutation of a
bar through the returned mapping is visible to subsequent reads (see the
counterexample). -/
theorem getAll_point_in_time_copy (hc : HeapCache) (k : String)
    (hnodup : (hc.data.map Prod.fst).Nodup) :
    mapLookup k hc.GetAll = mapLookup k hc.data ∧
    (∀ (st : HeapStore) (e : HeapEntry), mapLookup k hc.GetAll = some e →
      getSeriesBars hc st k = some (readBars st e.candlesRef)) := by
  have h1 : mapLookup k hc.GetAll = mapLookup k hc.data := by
    rw [HeapCache.GetAll, mapLookup_foldl_insert hc.data [] k hnodup]
    cases hlk : mapLookup k hc.data <;> simp [mapLookup]
  refine ⟨h1, ?_⟩
  intro st e he
  rw [h1] at he
  rw [getSeriesBars, HeapCache.Get, he]
  rfl

/-- Witness for C6 (amended) on the one-entry cache of the scenario. -/
theorem getAll_point_in_time_copy_witness :
    mapLookup "X" c6Cache.GetAll = mapLookup "X" c6Cache.data ∧
    (∀ (st : HeapStore) (e : HeapEntry), mapLookup "X" c6Cache.GetAll = some e →
      getSeriesBars c6Cache st "X" = some (readBars st e.candlesRef)) :=
  getAll_point_in_time_copy c6Cache "X" (by decide)

end HyperliquidCandles
